import Mathlib

/-!
Verification of the MantleYield vault (contracts/MantleYieldVault.sol and the
IdleStrategy reference adapter) against its natural-language specification.

The contracts are shallowly embedded: uint256 values become Nat (the contract
arithmetic in play never overflows 2^256 and Solidity 0.8 reverts rather than
wraps, so reverting paths are modelled as Except errors and all successful
arithmetic is plain Nat arithmetic), addresses become Nat (0 is the zero
address), external strategy adapters become records carrying their real token
balance plus two failure flags modelling a reverting totalAssets() or
withdraw() call, and each state-mutating entry point becomes a function
VaultState -> Except VErr ... where an error value models a full EVM revert
(no state change persists, which the Except encoding captures by carrying no
state in the error constructor).
-/

deriving instance DecidableEq for Except

namespace MantleYield

/-- A registered strategy adapter as the vault sees it: its address, its real
token balance (what totalAssets() reports when it does not revert), the
allocation cap the vault stores for it (strategyCap mapping), the asset it
reports, and two flags modelling a hard revert of totalAssets() or of
withdraw(). The IdleStrategy never sets either flag. -/
structure Strategy where
  addr : Nat
  bal : Nat
  cap : Nat
  sAsset : Nat
  tFails : Bool
  wFails : Bool
deriving DecidableEq, Repr

/-- Events emitted by the vault (the subset the claims mention). -/
inductive Ev where
  | stratWithdrawFailed (strategy requested : Nat)
  | rebalanceSlippage (strategy requested actual : Nat)
  | rebalanced (fromS toS amount : Nat)
  | withdrawEv (caller receiver owner_ assets shares : Nat)
  | depositEv (caller receiver assets shares : Nat)
  | strategyAdded (strategy cap : Nat)
  | strategyRemoved (strategy : Nat)
deriving DecidableEq, Repr

/-- Errors: the custom errors of MantleYieldVault, plus NotOwner for the
Ownable modifier, InsufficientBalance / InsufficientAllowance for the ERC20
reverts inside burn and spendAllowance, AdapterRevert for a revert bubbling
out of an unguarded external strategy call, and TransferFailed for a failing
token transfer inside a strategy deposit. -/
inductive VErr where
  | NotOperator
  | InvalidStrategy
  | ExceedsAllocationCap
  | StrategyAlreadyExists
  | ZeroAmount
  | InsufficientStrategyBalance
  | ZeroStrategyCap
  | InvalidOperator
  | AssetConservationViolated
  | AssetMismatch
  | StrategyNotEmpty
  | ZeroAddress
  | SameStrategy
  | Paused
  | NotOwner
  | InsufficientBalance
  | InsufficientAllowance
  | AdapterRevert
  | TransferFailed
deriving DecidableEq, Repr

/-- Association-list read with default 0, modelling a Solidity mapping. -/
def getA {κ : Type} [DecidableEq κ] : List (κ × Nat) → κ → Nat
  | [], _ => 0
  | (k', v) :: rest, k => if k' = k then v else getA rest k

/-- Association-list write, modelling a Solidity mapping update. -/
def setA {κ : Type} [DecidableEq κ] : List (κ × Nat) → κ → Nat → List (κ × Nat)
  | [], k, v => [(k, v)]
  | (k', v') :: rest, k, v => if k' = k then (k, v) :: rest else (k', v') :: setA rest k v

/-- The full vault state: the asset address fixed at construction, the idle
token balance held by the vault itself, the ordered strategies array (each
entry also carrying the strategyCap value for its address), the share token
supply and balances, the share allowance mapping (owner, spender) -> amount,
the owner and operator roles, the pause flag, and the emitted event log. -/
structure VaultState where
  assetAddr : Nat
  idle : Nat
  strategies : List Strategy
  supply : Nat
  balances : List (Nat × Nat)
  allowances : List ((Nat × Nat) × Nat)
  owner : Nat
  operator : Nat
  paused : Bool
  log : List Ev
deriving DecidableEq, Repr

/-- Sum of the registered strategies' balances. -/
def sumBals (l : List Strategy) : Nat := (l.map (·.bal)).sum

/-- totalAssets() of the vault: idle balance plus every registered strategy's
reported balance (MantleYieldVault.totalAssets, lines 390-399). The separate
predicate anyTFails models the fact that the Solidity function reverts when
any strategy's totalAssets() call reverts. -/
def vTotalAssets (s : VaultState) : Nat := s.idle + sumBals s.strategies

/-- True when some registered strategy's totalAssets() call would revert, in
which case every vault function that reads totalAssets() reverts too. -/
def anyTFails (l : List Strategy) : Bool := l.any (·.tFails)

/-- OpenZeppelin ERC4626._decimalsOffset(): MantleYieldVault does not override
it, so it is the library default 0. -/
def decimalsOffset : Nat := 0

/-- Math.mulDiv with Rounding.Floor. -/
def mulDivFloor (a b c : Nat) : Nat := a * b / c

/-- Math.mulDiv with Rounding.Ceil: floor plus one when there is a remainder. -/
def mulDivCeil (a b c : Nat) : Nat := a * b / c + (if a * b % c = 0 then 0 else 1)

/-- ERC4626._convertToShares with Rounding.Floor:
assets * (totalSupply + 10 ^ decimalsOffset) / (totalAssets + 1). -/
def convDown (supply total assets : Nat) : Nat :=
  mulDivFloor assets (supply + 10 ^ decimalsOffset) (total + 1)

/-- ERC4626._convertToShares with Rounding.Ceil (this is previewWithdraw). -/
def convUp (supply total assets : Nat) : Nat :=
  mulDivCeil assets (supply + 10 ^ decimalsOffset) (total + 1)

/-- ERC4626._convertToAssets with Rounding.Floor (this is previewRedeem):
shares * (totalAssets + 1) / (totalSupply + 10 ^ decimalsOffset). -/
def convAssetsDown (supply total shares : Nat) : Nat :=
  mulDivFloor shares (total + 1) (supply + 10 ^ decimalsOffset)

/-- The share/asset conversion formula exactly as the specification words it:
a proportional ratio of the form (totalShares + offset) / (totalCustodied + 1)
with a given virtual offset. Used to compare the spec's claimed offset
against the code's. -/
def specConvertToShares (offset totalShares totalCustodied assets : Nat) : Nat :=
  assets * (totalShares + offset) / (totalCustodied + 1)

/-- The inverse direction of the specification's formula. -/
def specConvertToAssets (offset totalShares totalCustodied shares : Nat) : Nat :=
  shares * (totalCustodied + 1) / (totalShares + offset)

/-- Result of the strategy-withdrawal loop: the still-unsatisfied remainder,
the updated strategies array, the StrategyWithdrawFailed events emitted, and
the addresses attempted in order (every loop iteration that runs queries the
strategy, so the visit order is the order of external calls). -/
structure CascRes where
  remaining : Nat
  strategies : List Strategy
  evs : List Ev
  visited : List Nat
deriving DecidableEq, Repr

/-- The loop body of MantleYieldVault._withdrawFromStrategies (lines 476-508):
walk the strategies array in order while the remainder is positive; a
reverting totalAssets() is caught, logged with requested amount 0 and
skipped; a strategy with zero balance is passed over silently; otherwise
withdraw(min(remaining, balance)) is attempted, a revert being caught and
logged with the requested amount, and an honest adapter (the IdleStrategy
semantics: release exactly min(amount, balance)) reduces the remainder and
its own balance by that amount. -/
def cascadeGo : List Strategy → Nat → CascRes
  | [], r => ⟨r, [], [], []⟩
  | st :: rest, r =>
    if r = 0 then ⟨r, st :: rest, [], []⟩
    else if st.tFails then
      let c := cascadeGo rest r
      ⟨c.remaining, st :: c.strategies, .stratWithdrawFailed st.addr 0 :: c.evs,
       st.addr :: c.visited⟩
    else if st.bal = 0 then
      let c := cascadeGo rest r
      ⟨c.remaining, st :: c.strategies, c.evs, st.addr :: c.visited⟩
    else
      let toW := min r st.bal
      if st.wFails then
        let c := cascadeGo rest r
        ⟨c.remaining, st :: c.strategies, .stratWithdrawFailed st.addr toW :: c.evs,
         st.addr :: c.visited⟩
      else
        let c := cascadeGo rest (r - toW)
        ⟨c.remaining, { st with bal := st.bal - toW } :: c.strategies, c.evs,
         st.addr :: c.visited⟩

/-- Total amount the cascade releases for a withdrawal of the given assets
against the given idle balance: the code runs the cascade only when the idle
balance is short, and _withdrawFromStrategies returns amount - remaining. -/
def wdReleased (idle : Nat) (strats : List Strategy) (assets : Nat) : Nat :=
  if idle < assets then (assets - idle) - (cascadeGo strats (assets - idle)).remaining else 0

/-- The strategies array after the (conditional) cascade step of a
withdrawal. -/
def wdStrats (idle : Nat) (strats : List Strategy) (assets : Nat) : List Strategy :=
  if idle < assets then (cascadeGo strats (assets - idle)).strategies else strats

/-- The events emitted by the (conditional) cascade step of a withdrawal. -/
def wdEvs (idle : Nat) (strats : List Strategy) (assets : Nat) : List Ev :=
  if idle < assets then (cascadeGo strats (assets - idle)).evs else []

/-- First strategy stored at a given address (the external contract the vault
would call at that address); none when the address is not registered. The
isStrategy mapping of the contract is kept in sync with membership in the
strategies array by addStrategy and removeStrategy, so registration is
modelled as presence in the array. -/
def lookupStrat : List Strategy → Nat → Option Strategy
  | [], _ => none
  | st :: rest, a => if st.addr = a then some st else lookupStrat rest a

/-- Apply an update to the strategy stored at a given address (first match). -/
def updStrat : List Strategy → Nat → (Strategy → Strategy) → List Strategy
  | [], _, _ => []
  | st :: rest, a, f => if st.addr = a then f st :: rest else st :: updStrat rest a f

/-- Core of MantleYieldVault.withdraw (lines 165-201), written over the state
fields it actually reads so that its independence from the pause flag is
visible in the type. Returns the updated fields together with the actual
assets delivered and the shares burned. The nonReentrant modifier is not
modelled: execution is single-threaded here. -/
structure WdRes where
  idle : Nat
  strategies : List Strategy
  supply : Nat
  balances : List (Nat × Nat)
  allowances : List ((Nat × Nat) × Nat)
  evs : List Ev
  actualAssets : Nat
  shares : Nat
deriving DecidableEq, Repr

/-- MantleYieldVault.withdraw body: zero checks, cascade when idle balance is
short, actual = min(available, requested), shares = previewWithdraw(actual)
(which reverts when any strategy's totalAssets() reverts, since totalAssets()
iterates all strategies unguarded), allowance spent after computing the
actual shares (the code comment stresses this order), burn, transfer. -/
def withdrawCore (idle : Nat) (strats : List Strategy) (supply : Nat)
    (balances : List (Nat × Nat)) (allowances : List ((Nat × Nat) × Nat))
    (caller receiver owner_ assets : Nat) : Except VErr WdRes :=
  if assets = 0 then .error .ZeroAmount
  else if receiver = 0 then .error .ZeroAddress
  else
    let released := wdReleased idle strats assets
    let strats' := wdStrats idle strats assets
    let idle1 := idle + released
    let totalAvailable := idle + released
    let actual := min totalAvailable assets
    if anyTFails strats' then .error .AdapterRevert
    else
      let sh := convUp supply (idle1 + sumBals strats') actual
      if caller = owner_ then
        if getA balances owner_ < sh then .error .InsufficientBalance
        else .ok ⟨idle1 - actual, strats', supply - sh,
                  setA balances owner_ (getA balances owner_ - sh), allowances,
                  wdEvs idle strats assets ++ [.withdrawEv caller receiver owner_ actual sh],
                  actual, sh⟩
      else if getA allowances (owner_, caller) < sh then .error .InsufficientAllowance
      else
        let allowances' := setA allowances (owner_, caller) (getA allowances (owner_, caller) - sh)
        if getA balances owner_ < sh then .error .InsufficientBalance
        else .ok ⟨idle1 - actual, strats', supply - sh,
                  setA balances owner_ (getA balances owner_ - sh), allowances',
                  wdEvs idle strats assets ++ [.withdrawEv caller receiver owner_ actual sh],
                  actual, sh⟩

/-- Reassemble a VaultState from a withdraw/redeem core result, leaving the
fields the operation does not touch (asset, roles, pause flag) unchanged. -/
def applyWd (s : VaultState) (r : WdRes) : VaultState × Nat × Nat :=
  ({ s with idle := r.idle, strategies := r.strategies, supply := r.supply,
            balances := r.balances, allowances := r.allowances,
            log := s.log ++ r.evs }, r.actualAssets, r.shares)

/-- MantleYieldVault.withdraw: returns the new state, the assets delivered to
the receiver, and the shares burned. Note there is no pause check anywhere in
this function. -/
def withdraw (s : VaultState) (caller receiver owner_ assets : Nat) :
    Except VErr (VaultState × Nat × Nat) :=
  (withdrawCore s.idle s.strategies s.supply s.balances s.allowances
      caller receiver owner_ assets).map (applyWd s)

/-- Core of MantleYieldVault.redeem (lines 211-249): zero checks, assets :=
previewRedeem(shares) (reverting when a strategy's totalAssets() reverts),
allowance spent on the full requested shares before the cascade, cascade when
idle balance is short, delivered assets clipped to the available amount, and
the full requested shares burned. -/
def redeemCore (idle : Nat) (strats : List Strategy) (supply : Nat)
    (balances : List (Nat × Nat)) (allowances : List ((Nat × Nat) × Nat))
    (caller receiver owner_ shares : Nat) : Except VErr WdRes :=
  if shares = 0 then .error .ZeroAmount
  else if receiver = 0 then .error .ZeroAddress
  else if anyTFails strats then .error .AdapterRevert
  else
    let entitlement := convAssetsDown supply (idle + sumBals strats) shares
    let released := wdReleased idle strats entitlement
    let idle1 := idle + released
    let assetsOut := min (idle + released) entitlement
    if caller = owner_ then
      if getA balances owner_ < shares then .error .InsufficientBalance
      else .ok ⟨idle1 - assetsOut, wdStrats idle strats entitlement, supply - shares,
                setA balances owner_ (getA balances owner_ - shares), allowances,
                wdEvs idle strats entitlement ++ [.withdrawEv caller receiver owner_ assetsOut shares],
                assetsOut, shares⟩
    else if getA allowances (owner_, caller) < shares then .error .InsufficientAllowance
    else
      let allowances' := setA allowances (owner_, caller) (getA allowances (owner_, caller) - shares)
      if getA balances owner_ < shares then .error .InsufficientBalance
      else .ok ⟨idle1 - assetsOut, wdStrats idle strats entitlement, supply - shares,
                setA balances owner_ (getA balances owner_ - shares), allowances',
                wdEvs idle strats entitlement ++ [.withdrawEv caller receiver owner_ assetsOut shares],
                assetsOut, shares⟩

/-- MantleYieldVault.redeem: returns the new state and the assets delivered
(the shares burned are exactly the requested shares). No pause check. -/
def redeem (s : VaultState) (caller receiver owner_ shares : Nat) :
    Except VErr (VaultState × Nat × Nat) :=
  (redeemCore s.idle s.strategies s.supply s.balances s.allowances
      caller receiver owner_ shares).map (applyWd s)

/-- MantleYieldVault.deposit (lines 125-135): the whenNotPaused modifier runs
before every body check, then zero checks, then the ERC4626 deposit which
computes previewDeposit (reverting when any strategy's totalAssets() call
reverts), pulls the assets in and mints the shares. -/
def deposit (s : VaultState) (caller receiver assets : Nat) :
    Except VErr (VaultState × Nat) :=
  if s.paused then .error .Paused
  else if assets = 0 then .error .ZeroAmount
  else if receiver = 0 then .error .ZeroAddress
  else if anyTFails s.strategies then .error .AdapterRevert
  else
    let sh := convDown s.supply (vTotalAssets s) assets
    .ok ({ s with idle := s.idle + assets, supply := s.supply + sh,
                  balances := setA s.balances receiver (getA s.balances receiver + sh),
                  log := s.log ++ [.depositEv caller receiver assets sh] }, sh)

/-- The observable outcome of the two external calls a rebalance makes. The
conservation check exists precisely because a strategy is an arbitrary
external contract, so the effect of fromStrategy.withdraw(amount) and
toStrategy.deposit(withdrawn) is kept abstract: the value withdraw returns,
the balance the source reports afterwards, the tokens actually received by
the vault, the balance increase the destination reports after deposit, and
the tokens the deposit pulls from the vault. An honest adapter obeying the
capability contract (IdleStrategy) has wdReturn = wdIdleGain = min(amount,
balance), wdFromBal = balance - wdReturn, depToGain = depIdlePull = wdReturn. -/
structure RebEnv where
  wdReturn : Nat
  wdFromBal : Nat
  wdIdleGain : Nat
  depToGain : Nat
  depIdlePull : Nat
deriving DecidableEq, Repr

/-- The environment produced by honest IdleStrategy-like adapters. -/
def honestEnv (fromBal amount : Nat) : RebEnv :=
  let w := min amount fromBal
  ⟨w, fromBal - w, w, w, w⟩

/-- State after the source strategy's withdraw call and the slippage event
(rebalance lines 281-286). -/
def rebEff1 (s : VaultState) (fromA amount : Nat) (env : RebEnv) : VaultState :=
  { s with strategies := updStrat s.strategies fromA (fun st => { st with bal := env.wdFromBal }),
           idle := s.idle + env.wdIdleGain,
           log := s.log ++ (if env.wdReturn < amount
                            then [.rebalanceSlippage fromA amount env.wdReturn] else []) }

/-- State after the destination strategy's deposit call (rebalance lines
289-290). -/
def rebEff2 (s1 : VaultState) (toA : Nat) (env : RebEnv) : VaultState :=
  { s1 with strategies := updStrat s1.strategies toA (fun st => { st with bal := st.bal + env.depToGain }),
            idle := s1.idle - env.depIdlePull }

/-- The state a successful rebalance ends in: both external-call effects plus
the Rebalanced event. -/
def rebFinal (s : VaultState) (fromA toA amount : Nat) (env : RebEnv) : VaultState :=
  let s2 := rebEff2 (rebEff1 s fromA amount env) toA env
  { s2 with log := s2.log ++ [.rebalanced fromA toA env.wdReturn] }

/-- MantleYieldVault.rebalance (lines 259-297). Modifier order matters: the
onlyOperator check precedes the whenNotPaused check. Then the body checks in
source order, the source withdraw (reverting aborts the call: no try-catch
here), the slippage event, the destination deposit, and the conservation
check comparing totalAssets() before and after; a mismatch reverts the whole
call with AssetConservationViolated. -/
def rebalance (s : VaultState) (caller fromA toA amount : Nat) (env : RebEnv) :
    Except VErr VaultState :=
  if caller ≠ s.operator ∧ caller ≠ s.owner then .error .NotOperator
  else if s.paused then .error .Paused
  else if amount = 0 then .error .ZeroAmount
  else match lookupStrat s.strategies fromA, lookupStrat s.strategies toA with
  | none, _ => .error .InvalidStrategy
  | some _, none => .error .InvalidStrategy
  | some fromSt, some toSt =>
    if fromA = toA then .error .SameStrategy
    else if fromSt.tFails then .error .AdapterRevert
    else if fromSt.bal < amount then .error .InsufficientStrategyBalance
    else if toSt.tFails then .error .AdapterRevert
    else if toSt.bal + amount > toSt.cap then .error .ExceedsAllocationCap
    else if anyTFails s.strategies then .error .AdapterRevert
    else
      let totalBefore := vTotalAssets s
      if fromSt.wFails then .error .AdapterRevert
      else
        if (rebEff1 s fromA amount env).idle < env.depIdlePull then .error .TransferFailed
        else if vTotalAssets (rebEff2 (rebEff1 s fromA amount env) toA env) ≠ totalBefore
          then .error .AssetConservationViolated
        else .ok (rebFinal s fromA toA amount env)

/-- MantleYieldVault.addStrategy (lines 305-318): owner only, nonzero
address, not already registered, nonzero cap, matching asset; then the
strategy is appended to the array with its cap recorded. -/
def addStrategy (s : VaultState) (caller : Nat) (st : Strategy) (cap : Nat) :
    Except VErr VaultState :=
  if caller ≠ s.owner then .error .NotOwner
  else if st.addr = 0 then .error .InvalidStrategy
  else if (lookupStrat s.strategies st.addr).isSome then .error .StrategyAlreadyExists
  else if cap = 0 then .error .ZeroStrategyCap
  else if st.sAsset ≠ s.assetAddr then .error .AssetMismatch
  else .ok { s with strategies := s.strategies ++ [{ st with cap := cap }],
                    log := s.log ++ [.strategyAdded st.addr cap] }

/-- The array surgery removeStrategy performs (lines 332-338): overwrite the
first matching slot with the last element, then pop the last element. -/
def swapRemove (l : List Strategy) (a : Nat) : List Strategy :=
  match l.findIdx? (fun st => decide (st.addr = a)), l.getLast? with
  | some i, some last => (l.set i last).dropLast
  | _, _ => l

/-- MantleYieldVault.removeStrategy (lines 325-344): owner only, registered,
empty (its totalAssets() is queried unguarded, so a reverting strategy makes
the call revert), then swap-remove from the array. -/
def removeStrategy (s : VaultState) (caller a : Nat) : Except VErr VaultState :=
  if caller ≠ s.owner then .error .NotOwner
  else match lookupStrat s.strategies a with
  | none => .error .InvalidStrategy
  | some st =>
    if st.tFails then .error .AdapterRevert
    else if st.bal ≠ 0 then .error .StrategyNotEmpty
    else .ok { s with strategies := swapRemove s.strategies a,
                      log := s.log ++ [.strategyRemoved a] }

/-- The IdleStrategy contract on its own (contracts/strategies/IdleStrategy
.sol as reproduced in contracts/README.md): its owner, the vault it serves,
its real token balance, and the token balance of its owner's wallet. -/
structure IdleStrategyState where
  stOwner : Nat
  vault : Nat
  bal : Nat
  ownerWallet : Nat
deriving DecidableEq, Repr

/-- IdleStrategy.totalAssets(): the real token balance. -/
def IdleStrategyState.stTotalAssets (st : IdleStrategyState) : Nat := st.bal

/-- IdleStrategy.emergencyWithdraw(): onlyOwner (not onlyVault), transfers
the strategy's entire token balance to the owner's wallet when nonzero. -/
def emergencyWithdraw (st : IdleStrategyState) (caller : Nat) :
    Except VErr IdleStrategyState :=
  if caller ≠ st.stOwner then .error .NotOwner
  else if st.bal > 0 then .ok { st with bal := 0, ownerWallet := st.ownerWallet + st.bal }
  else .ok st

/-- The vault state as seen after an external event changed the token balance
held at a registered strategy address (the vault's own storage is untouched;
only what totalAssets() reads changes). -/
def reflectBal (s : VaultState) (a b : Nat) : VaultState :=
  { s with strategies := updStrat s.strategies a (fun st => { st with bal := b }) }

/-- Flip only the pause flag of a vault state. -/
def setPaused (s : VaultState) (b : Bool) : VaultState := { s with paused := b }

/-! ### Concrete fixture states used to evaluate the operations -/

/-- A paused vault (owner 4, operator 5) with no strategies. -/
def pausedVault : VaultState := ⟨7, 0, [], 0, [], [], 4, 5, true, []⟩

/-- A small live vault: 5 idle, holder 1 owns all 10 shares. -/
def liveVault : VaultState := ⟨7, 5, [], 10, [(1, 10)], [], 4, 5, false, []⟩

/-- A vault whose first strategy holds 8 but reverts on withdraw, second
holds 4 and is honest; holder 1 owns all 12 shares, idle 0. -/
def twoStratVault : VaultState :=
  ⟨7, 0, [⟨1, 8, 100, 7, false, true⟩, ⟨2, 4, 100, 7, false, false⟩],
   12, [(1, 12)], [], 4, 5, false, []⟩

/-- A vault with 3 idle and 2 issued shares all owned by holder 1, chosen so
that the round-up and round-down share conversions differ. -/
def roundingVault : VaultState := ⟨7, 3, [], 2, [(1, 2)], [], 4, 5, false, []⟩

/-- A vault with 60 custodied (50 stuck behind a reverting withdraw, 10
honest), 100 shares all owned by holder 1, idle 0. -/
def stuckVault : VaultState :=
  ⟨7, 0, [⟨1, 50, 100, 7, false, true⟩, ⟨2, 10, 100, 7, false, false⟩],
   100, [(1, 100)], [], 4, 5, false, []⟩

/-- A vault whose only strategy's balance query reverts; holder 1 owns all
10 shares, idle 0. -/
def badQueryVault : VaultState :=
  ⟨7, 0, [⟨5, 7, 100, 7, true, false⟩], 10, [(1, 10)], [], 4, 5, false, []⟩

/-- A fresh vault (owner 4, operator 5) for exercising the registry. -/
def regVault : VaultState := ⟨7, 0, [], 0, [], [], 4, 5, false, []⟩

/-! ## Helper lemmas about the cascade and the state components -/

theorem cascadeGo_zero (l : List Strategy) : cascadeGo l 0 = ⟨0, l, [], []⟩ := by
  cases l <;> rfl

theorem cascadeGo_remaining_le (l : List Strategy) (r : Nat) :
    (cascadeGo l r).remaining ≤ r := by
  induction l generalizing r with
  | nil => exact Nat.le_refl r
  | cons st rest ih =>
    simp only [cascadeGo]
    split_ifs with h1 h2 h3 h4
    · exact Nat.le_refl r
    · exact ih r
    · exact ih r
    · exact ih r
    · exact Nat.le_trans (ih (r - min r st.bal)) (Nat.sub_le _ _)

theorem cascadeGo_sum (l : List Strategy) (r : Nat) :
    sumBals (cascadeGo l r).strategies + (r - (cascadeGo l r).remaining) = sumBals l := by
  induction l generalizing r with
  | nil => simp [cascadeGo, sumBals]
  | cons st rest ih =>
    simp only [cascadeGo]
    split_ifs with h1 h2 h3 h4
    · simp
    · have := ih r
      simp only [sumBals, List.map_cons, List.sum_cons] at *
      omega
    · have := ih r
      simp only [sumBals, List.map_cons, List.sum_cons] at *
      omega
    · have := ih r
      simp only [sumBals, List.map_cons, List.sum_cons] at *
      omega
    · have h5 := ih (r - min r st.bal)
      have h6 := cascadeGo_remaining_le rest (r - min r st.bal)
      simp only [sumBals, List.map_cons, List.sum_cons] at *
      have hm : min r st.bal ≤ st.bal := Nat.min_le_right r st.bal
      have hm2 : min r st.bal ≤ r := Nat.min_le_left r st.bal
      omega

theorem cascadeGo_tFails (l : List Strategy) (r : Nat) :
    (cascadeGo l r).strategies.map (·.tFails) = l.map (·.tFails) := by
  induction l generalizing r with
  | nil => rfl
  | cons st rest ih =>
    simp only [cascadeGo]
    split_ifs with h1 h2 h3 h4 <;> simp [ih]

theorem anyTFails_cascadeGo (l : List Strategy) (r : Nat) :
    anyTFails (cascadeGo l r).strategies = anyTFails l := by
  induction l generalizing r with
  | nil => rfl
  | cons st rest ih =>
    simp only [cascadeGo]
    split_ifs with h1 h2 h3 h4 <;>
      simp only [anyTFails] at ih ⊢ <;>
      simp [List.any_cons, ih]

theorem cascadeGo_visited_take (l : List Strategy) (r : Nat) :
    ∃ k, (cascadeGo l r).visited = (l.map (·.addr)).take k := by
  induction l generalizing r with
  | nil => exact ⟨0, rfl⟩
  | cons st rest ih =>
    simp only [cascadeGo]
    split_ifs with h1 h2 h3 h4
    · exact ⟨0, rfl⟩
    · rcases ih r with ⟨k, hk⟩
      exact ⟨k + 1, by simp [hk]⟩
    · rcases ih r with ⟨k, hk⟩
      exact ⟨k + 1, by simp [hk]⟩
    · rcases ih r with ⟨k, hk⟩
      exact ⟨k + 1, by simp [hk]⟩
    · rcases ih (r - min r st.bal) with ⟨k, hk⟩
      exact ⟨k + 1, by simp [hk]⟩

theorem cascadeGo_append (l1 l2 : List Strategy) (r : Nat) :
    cascadeGo (l1 ++ l2) r =
      ⟨(cascadeGo l2 (cascadeGo l1 r).remaining).remaining,
       (cascadeGo l1 r).strategies ++ (cascadeGo l2 (cascadeGo l1 r).remaining).strategies,
       (cascadeGo l1 r).evs ++ (cascadeGo l2 (cascadeGo l1 r).remaining).evs,
       (cascadeGo l1 r).visited ++ (cascadeGo l2 (cascadeGo l1 r).remaining).visited⟩ := by
  induction l1 generalizing r with
  | nil => simp [cascadeGo]
  | cons st rest ih =>
    by_cases h1 : r = 0
    · subst h1
      simp [cascadeGo_zero, cascadeGo]
    · simp only [List.cons_append, cascadeGo, if_neg h1]
      split_ifs with h2 h3 h4 <;> simp [ih]

theorem getA_setA_self {κ : Type} [DecidableEq κ] (l : List (κ × Nat)) (k : κ) (v : Nat) :
    getA (setA l k v) k = v := by
  induction l with
  | nil => simp [getA, setA]
  | cons p rest ih =>
    by_cases h : p.1 = k
    · simp [getA, setA, h]
    · simp [getA, setA, h, ih]

theorem getA_setA_ne {κ : Type} [DecidableEq κ] (l : List (κ × Nat)) (k k' : κ) (v : Nat)
    (h : k ≠ k') : getA (setA l k v) k' = getA l k' := by
  induction l with
  | nil => simp [getA, setA, h]
  | cons p rest ih =>
    by_cases h2 : p.1 = k
    · simp [getA, setA, h2, h]
    · simp only [setA, if_neg h2, getA]
      by_cases h3 : p.1 = k' <;> simp [h3, ih]

theorem lookupStrat_updStrat_self (l : List Strategy) (a : Nat) (f : Strategy → Strategy)
    (hf : ∀ t, (f t).addr = t.addr) :
    lookupStrat (updStrat l a f) a = (lookupStrat l a).map f := by
  induction l with
  | nil => rfl
  | cons st rest ih =>
    by_cases h : st.addr = a
    · simp [lookupStrat, updStrat, h, hf]
    · simp [lookupStrat, updStrat, h, ih]

theorem lookupStrat_updStrat_ne (l : List Strategy) (a b : Nat) (f : Strategy → Strategy)
    (hf : ∀ t, (f t).addr = t.addr) (hab : a ≠ b) :
    lookupStrat (updStrat l a f) b = lookupStrat l b := by
  induction l with
  | nil => rfl
  | cons st rest ih =>
    by_cases h : st.addr = a
    · have : (f st).addr = st.addr := hf st
      simp [lookupStrat, updStrat, h, this, hab]
    · simp only [updStrat, if_neg h, lookupStrat]
      by_cases h2 : st.addr = b <;> simp [h2, ih]

theorem sumBals_updStrat (l : List Strategy) (a : Nat) (st : Strategy)
    (f : Strategy → Strategy) (hbal : ∀ t, (f t).bal = t.bal) (h : lookupStrat l a = some st) :
    sumBals (updStrat l a f) = sumBals l := by
  induction l with
  | nil => simp [lookupStrat] at h
  | cons hd rest ih =>
    by_cases hh : hd.addr = a
    · simp [sumBals, updStrat, hh, hbal]
    · simp only [lookupStrat, if_neg hh] at h
      simp [sumBals, updStrat, hh, ih h]
      have := ih h
      simp only [sumBals] at this
      omega

theorem sumBals_updStrat_setBal (l : List Strategy) (a : Nat) (st : Strategy) (b : Nat)
    (h : lookupStrat l a = some st) :
    sumBals (updStrat l a (fun t => { t with bal := b })) + st.bal = sumBals l + b := by
  induction l with
  | nil => simp [lookupStrat] at h
  | cons hd rest ih =>
    by_cases hh : hd.addr = a
    · simp only [lookupStrat, if_pos hh] at h
      cases h
      simp [sumBals, updStrat, hh]
      omega
    · simp only [lookupStrat, if_neg hh] at h
      have := ih h
      simp only [sumBals, updStrat, if_neg hh, List.map_cons, List.sum_cons] at *
      omega

theorem mulDivCeil_mono (a b M c : Nat) (h : a ≤ b) :
    mulDivCeil a M c ≤ mulDivCeil b M c := by
  simp only [mulDivCeil]
  have h1 : a * M ≤ b * M := Nat.mul_le_mul_right _ h
  have hq : a * M / c ≤ b * M / c := Nat.div_le_div_right h1
  have key : a * M % c ≠ 0 → b * M % c = 0 → a * M / c < b * M / c := by
    intro hra hrb
    rcases Nat.lt_or_ge (a * M / c) (b * M / c) with hx | hx
    · exact hx
    · exfalso
      have e1 := Nat.div_add_mod (a * M) c
      have e2 := Nat.div_add_mod (b * M) c
      have h3 : c * (b * M / c) ≤ c * (a * M / c) := Nat.mul_le_mul_left c hx
      omega
  split_ifs with hA hB hB
  · omega
  · omega
  · have := key hA hB
    omega
  · omega

theorem convUp_mono (supply total a b : Nat) (h : a ≤ b) :
    convUp supply total a ≤ convUp supply total b := by
  simp only [convUp]
  exact mulDivCeil_mono a b _ _ h

/-- The cascade step of a withdrawal conserves token value: tokens only move
from the strategies into the vault's idle balance. -/
theorem wd_total_eq (idle : Nat) (strats : List Strategy) (assets : Nat) :
    idle + wdReleased idle strats assets + sumBals (wdStrats idle strats assets)
      = idle + sumBals strats := by
  by_cases h : idle < assets
  · have h1 := cascadeGo_sum strats (assets - idle)
    have h2 := cascadeGo_remaining_le strats (assets - idle)
    simp only [wdReleased, wdStrats, if_pos h]
    omega
  · simp [wdReleased, wdStrats, if_neg h]

/-- The cascade step of a withdrawal does not change which strategies have a
reverting balance query. -/
theorem wdStrats_tFails (idle : Nat) (strats : List Strategy) (assets : Nat) :
    anyTFails (wdStrats idle strats assets) = anyTFails strats := by
  by_cases h : idle < assets
  · simp [wdStrats, if_pos h, anyTFails_cascadeGo]
  · simp [wdStrats, if_neg h]

/-- Every successful withdrawCore result: the assets delivered are
min(requested, idle + released), the shares burned are previewWithdraw of
that actual amount at the pre-call exchange rate, the supply drops by those
shares and the owner's share balance drops by those shares. -/
theorem withdrawCore_ok (idle : Nat) (strats : List Strategy) (supply : Nat)
    (balances : List (Nat × Nat)) (allowances : List ((Nat × Nat) × Nat))
    (caller receiver owner_ assets : Nat) (res : WdRes)
    (h : withdrawCore idle strats supply balances allowances caller receiver owner_ assets
          = .ok res) :
    res.actualAssets = min assets (idle + wdReleased idle strats assets)
    ∧ res.shares = convUp supply (idle + sumBals strats) res.actualAssets
    ∧ res.supply = supply - res.shares
    ∧ getA res.balances owner_ = getA balances owner_ - res.shares
    ∧ res.shares ≤ getA balances owner_ := by
  have htot := wd_total_eq idle strats assets
  simp only [withdrawCore] at h
  split_ifs at h with h1 h2 h3 h4 h5 h6 h7 <;>
    first
      | exact Except.noConfusion h
      | (simp only [Except.ok.injEq] at h
         subst h
         dsimp only
         refine ⟨by omega, ?_, rfl, getA_setA_self _ _ _, by omega⟩
         rw [htot])

/-- withdrawCore succeeds whenever the request is nonzero to a nonzero
receiver, no strategy's balance query reverts, the caller is the share
owner, and the owner's share balance covers even the requested amount's
worth of shares (a bound that dominates the shares actually burned). -/
theorem withdrawCore_isOk (idle : Nat) (strats : List Strategy) (supply : Nat)
    (balances : List (Nat × Nat)) (allowances : List ((Nat × Nat) × Nat))
    (caller receiver owner_ assets : Nat)
    (ha : assets ≠ 0) (hr : receiver ≠ 0) (ht : anyTFails strats = false)
    (hco : caller = owner_)
    (hb : convUp supply (idle + sumBals strats) assets ≤ getA balances owner_) :
    ∃ res, withdrawCore idle strats supply balances allowances caller receiver owner_ assets
      = .ok res := by
  have htot := wd_total_eq idle strats assets
  have ht2 : anyTFails (wdStrats idle strats assets) = false := by
    rw [wdStrats_tFails]; exact ht
  have hbound : convUp supply
      (idle + wdReleased idle strats assets + sumBals (wdStrats idle strats assets))
      (min (idle + wdReleased idle strats assets) assets) ≤ getA balances owner_ := by
    rw [htot]
    exact Nat.le_trans (convUp_mono _ _ _ _ (Nat.min_le_right _ _)) hb
  simp only [withdrawCore, if_neg ha, if_neg hr, ht2, Bool.false_eq_true, if_false,
    if_pos hco]
  rw [if_neg (Nat.not_lt.mpr hbound)]
  exact ⟨_, rfl⟩

/-- Every successful redeemCore result: exactly the requested shares are
burned from the owner (supply and owner balance both drop by the full
requested shares), and the delivered assets are min(entitlement, idle +
released), the entitlement being previewRedeem at the pre-call rate. -/
theorem redeemCore_ok (idle : Nat) (strats : List Strategy) (supply : Nat)
    (balances : List (Nat × Nat)) (allowances : List ((Nat × Nat) × Nat))
    (caller receiver owner_ shares : Nat) (res : WdRes)
    (h : redeemCore idle strats supply balances allowances caller receiver owner_ shares
          = .ok res) :
    res.shares = shares
    ∧ res.supply = supply - shares
    ∧ getA res.balances owner_ = getA balances owner_ - shares
    ∧ shares ≤ getA balances owner_
    ∧ res.actualAssets
        = min (idle + wdReleased idle strats
                (convAssetsDown supply (idle + sumBals strats) shares))
              (convAssetsDown supply (idle + sumBals strats) shares) := by
  simp only [redeemCore] at h
  split_ifs at h with h1 h2 h3 h4 h5 h6 h7 <;>
    first
      | exact Except.noConfusion h
      | (simp only [Except.ok.injEq] at h
         subst h
         exact ⟨rfl, rfl, getA_setA_self _ _ _, by omega, rfl⟩)

/-- The log field plays no role in the vault's total assets. -/
theorem vTotalAssets_log (x : VaultState) (L : List Ev) :
    vTotalAssets { x with log := L } = vTotalAssets x := rfl

/-- withdraw never reads the pause flag: its behaviour on a state with the
flag forced to any value is the same computation, with the flag simply
carried through to the result state. -/
theorem withdraw_pause_free (s : VaultState) (b : Bool) (caller receiver owner_ assets : Nat) :
    withdraw (setPaused s b) caller receiver owner_ assets
      = Except.map (fun p => (setPaused p.1 b, p.2))
          (withdraw s caller receiver owner_ assets) := by
  simp only [withdraw, setPaused]
  cases withdrawCore s.idle s.strategies s.supply s.balances s.allowances
      caller receiver owner_ assets <;> rfl

/-- redeem never reads the pause flag either. -/
theorem redeem_pause_free (s : VaultState) (b : Bool) (caller receiver owner_ shares : Nat) :
    redeem (setPaused s b) caller receiver owner_ shares
      = Except.map (fun p => (setPaused p.1 b, p.2))
          (redeem s caller receiver owner_ shares) := by
  simp only [redeem, setPaused]
  cases redeemCore s.idle s.strategies s.supply s.balances s.allowances
      caller receiver owner_ shares <;> rfl

/-- rebalance with every precondition satisfied reaches the conservation
check: the result is the effect state when the check passes and the
AssetConservationViolated revert when it does not. -/
theorem rebalance_unfolded (s : VaultState) (caller fromA toA amount : Nat) (env : RebEnv)
    (fromSt toSt : Strategy)
    (hauth : caller = s.operator ∨ caller = s.owner) (hp : s.paused = false)
    (ha : amount ≠ 0) (hfrom : lookupStrat s.strategies fromA = some fromSt)
    (hto : lookupStrat s.strategies toA = some toSt) (hne : fromA ≠ toA)
    (hft : fromSt.tFails = false) (hfb : amount ≤ fromSt.bal) (htt : toSt.tFails = false)
    (hcap : toSt.bal + amount ≤ toSt.cap) (hall : anyTFails s.strategies = false)
    (hfw : fromSt.wFails = false)
    (hpull : env.depIdlePull ≤ (rebEff1 s fromA amount env).idle) :
    rebalance s caller fromA toA amount env
      = if vTotalAssets (rebEff2 (rebEff1 s fromA amount env) toA env) ≠ vTotalAssets s
        then .error .AssetConservationViolated
        else .ok (rebFinal s fromA toA amount env) := by
  have hnot : ¬(caller ≠ s.operator ∧ caller ≠ s.owner) := by
    rcases hauth with h | h <;> simp [h]
  simp only [rebalance, if_neg hnot, hp, Bool.false_eq_true, if_false, if_neg ha,
    hfrom, hto, if_neg hne, hft, if_neg (Nat.not_lt.mpr hfb), htt,
    if_neg (show ¬toSt.bal + amount > toSt.cap from Nat.not_lt.mpr hcap), hall,
    hfw, if_neg (Nat.not_lt.mpr hpull)]

/-- Inversion of a successful rebalance: the guards all passed, the
conservation check held, and the result is the effect state. -/
theorem rebalance_ok_inversion (s : VaultState) (caller fromA toA amount : Nat)
    (env : RebEnv) (s' : VaultState)
    (h : rebalance s caller fromA toA amount env = .ok s') :
    ∃ fromSt toSt : Strategy,
      lookupStrat s.strategies fromA = some fromSt
      ∧ lookupStrat s.strategies toA = some toSt
      ∧ fromA ≠ toA
      ∧ amount ≤ fromSt.bal
      ∧ toSt.bal + amount ≤ toSt.cap
      ∧ vTotalAssets (rebEff2 (rebEff1 s fromA amount env) toA env) = vTotalAssets s
      ∧ s' = rebFinal s fromA toA amount env := by
  by_cases c1 : caller ≠ s.operator ∧ caller ≠ s.owner
  · simp only [rebalance, if_pos c1] at h
    exact Except.noConfusion h
  by_cases c2 : s.paused = true
  · simp only [rebalance, if_neg c1, if_pos c2] at h
    exact Except.noConfusion h
  by_cases c3 : amount = 0
  · simp only [rebalance, if_neg c1, if_neg c2, if_pos c3] at h
    exact Except.noConfusion h
  cases hfrom : lookupStrat s.strategies fromA with
  | none =>
    simp only [rebalance, if_neg c1, if_neg c2, if_neg c3, hfrom] at h
    exact Except.noConfusion h
  | some fromSt =>
  cases hto : lookupStrat s.strategies toA with
  | none =>
    simp only [rebalance, if_neg c1, if_neg c2, if_neg c3, hfrom, hto] at h
    exact Except.noConfusion h
  | some toSt =>
  by_cases c4 : fromA = toA
  · simp only [rebalance, if_neg c1, if_neg c2, if_neg c3, hfrom, hto, if_pos c4] at h
    exact Except.noConfusion h
  by_cases c5 : fromSt.tFails = true
  · simp only [rebalance, if_neg c1, if_neg c2, if_neg c3, hfrom, hto, if_neg c4,
      if_pos c5] at h
    exact Except.noConfusion h
  by_cases c6 : fromSt.bal < amount
  · simp only [rebalance, if_neg c1, if_neg c2, if_neg c3, hfrom, hto, if_neg c4,
      if_neg c5, if_pos c6] at h
    exact Except.noConfusion h
  by_cases c7 : toSt.tFails = true
  · simp only [rebalance, if_neg c1, if_neg c2, if_neg c3, hfrom, hto, if_neg c4,
      if_neg c5, if_neg c6, if_pos c7] at h
    exact Except.noConfusion h
  by_cases c8 : toSt.bal + amount > toSt.cap
  · simp only [rebalance, if_neg c1, if_neg c2, if_neg c3, hfrom, hto, if_neg c4,
      if_neg c5, if_neg c6, if_neg c7, if_pos c8] at h
    exact Except.noConfusion h
  by_cases c9 : anyTFails s.strategies = true
  · simp only [rebalance, if_neg c1, if_neg c2, if_neg c3, hfrom, hto, if_neg c4,
      if_neg c5, if_neg c6, if_neg c7, if_neg c8, if_pos c9] at h
    exact Except.noConfusion h
  by_cases c10 : fromSt.wFails = true
  · simp only [rebalance, if_neg c1, if_neg c2, if_neg c3, hfrom, hto, if_neg c4,
      if_neg c5, if_neg c6, if_neg c7, if_neg c8, if_neg c9, if_pos c10] at h
    exact Except.noConfusion h
  by_cases c11 : (rebEff1 s fromA amount env).idle < env.depIdlePull
  · simp only [rebalance, if_neg c1, if_neg c2, if_neg c3, hfrom, hto, if_neg c4,
      if_neg c5, if_neg c6, if_neg c7, if_neg c8, if_neg c9, if_neg c10, if_pos c11] at h
    exact Except.noConfusion h
  by_cases c12 : vTotalAssets (rebEff2 (rebEff1 s fromA amount env) toA env)
      ≠ vTotalAssets s
  · simp only [rebalance, if_neg c1, if_neg c2, if_neg c3, hfrom, hto, if_neg c4,
      if_neg c5, if_neg c6, if_neg c7, if_neg c8, if_neg c9, if_neg c10, if_neg c11,
      if_pos c12] at h
    exact Except.noConfusion h
  · simp only [rebalance, if_neg c1, if_neg c2, if_neg c3, hfrom, hto, if_neg c4,
      if_neg c5, if_neg c6, if_neg c7, if_neg c8, if_neg c9, if_neg c10, if_neg c11,
      if_neg c12, Except.ok.injEq] at h
    exact ⟨fromSt, toSt, rfl, rfl, c4, Nat.not_lt.mp c6, Nat.not_lt.mp c8,
      not_ne_iff.mp c12, h.symm⟩

/-! ## Claim theorems -/

/-- Claim C1: every successful rebalance leaves totalAssets() unchanged, and
whenever the two external strategy calls would change the total (for any
adapter behaviour env), a call that reaches the conservation check is
rejected with AssetConservationViolated; the Except encoding of the EVM
revert means no state change persists in that case. -/
theorem claimC1_rebalance_conservation :
    (∀ (s : VaultState) (caller fromA toA amount : Nat) (env : RebEnv) (s' : VaultState),
        rebalance s caller fromA toA amount env = .ok s' →
        vTotalAssets s' = vTotalAssets s)
    ∧ (∀ (s : VaultState) (caller fromA toA amount : Nat) (env : RebEnv)
          (fromSt toSt : Strategy),
        (caller = s.operator ∨ caller = s.owner) → s.paused = false → amount ≠ 0 →
        lookupStrat s.strategies fromA = some fromSt →
        lookupStrat s.strategies toA = some toSt → fromA ≠ toA →
        fromSt.tFails = false → amount ≤ fromSt.bal → toSt.tFails = false →
        toSt.bal + amount ≤ toSt.cap → anyTFails s.strategies = false →
        fromSt.wFails = false → env.depIdlePull ≤ (rebEff1 s fromA amount env).idle →
        vTotalAssets (rebEff2 (rebEff1 s fromA amount env) toA env) ≠ vTotalAssets s →
        rebalance s caller fromA toA amount env = .error .AssetConservationViolated) := by
  constructor
  · intro s caller fromA toA amount env s' h
    obtain ⟨fromSt, toSt, _, _, _, _, _, hcons, hs'⟩ :=
      rebalance_ok_inversion s caller fromA toA amount env s' h
    subst hs'
    simp only [rebFinal]
    rw [vTotalAssets_log]
    exact hcons
  · intro s caller fromA toA amount env fromSt toSt hauth hp ha hfrom hto hne hft hfb
      htt hcap hall hfw hpull hmis
    rw [rebalance_unfolded s caller fromA toA amount env fromSt toSt hauth hp ha hfrom
      hto hne hft hfb htt hcap hall hfw hpull, if_pos hmis]

/-- Witness for C1: a concrete rebalance whose destination adapter reports
receiving more than was withdrawn is rejected with
AssetConservationViolated. -/
theorem claimC1_rebalance_conservation_witness :
    rebalance ⟨7, 0, [⟨1, 10, 100, 7, false, false⟩, ⟨2, 0, 100, 7, false, false⟩],
        0, [], [], 4, 5, false, []⟩ 5 1 2 4 ⟨4, 6, 4, 9, 4⟩
      = .error .AssetConservationViolated :=
  claimC1_rebalance_conservation.2
    ⟨7, 0, [⟨1, 10, 100, 7, false, false⟩, ⟨2, 0, 100, 7, false, false⟩],
        0, [], [], 4, 5, false, []⟩ 5 1 2 4 ⟨4, 6, 4, 9, 4⟩
    ⟨1, 10, 100, 7, false, false⟩ ⟨2, 0, 100, 7, false, false⟩
    (Or.inl rfl) rfl (by decide) (by decide) (by decide) (by decide) rfl
    (by decide) rfl (by decide) (by decide) rfl (by decide) (by decide)

/-- Claim C6: a rebalance whose destination would be pushed past its
allocation cap by the requested amount fails with ExceedsAllocationCap (and
the Except encoding means no state change), and any successful rebalance
whose destination adapter reports a deposit gain of at most the requested
amount (which the capability contract guarantees, the release being at most
the request) leaves the destination's held value at or below its cap. -/
theorem claimC6_cap_enforcement :
    (∀ (s : VaultState) (caller fromA toA amount : Nat) (env : RebEnv)
        (fromSt toSt : Strategy),
        (caller = s.operator ∨ caller = s.owner) → s.paused = false → amount ≠ 0 →
        lookupStrat s.strategies fromA = some fromSt →
        lookupStrat s.strategies toA = some toSt → fromA ≠ toA →
        fromSt.tFails = false → amount ≤ fromSt.bal → toSt.tFails = false →
        toSt.bal + amount > toSt.cap →
        rebalance s caller fromA toA amount env = .error .ExceedsAllocationCap)
    ∧ (∀ (s : VaultState) (caller fromA toA amount : Nat) (env : RebEnv)
          (s' : VaultState) (toSt' : Strategy),
        env.depToGain ≤ amount →
        rebalance s caller fromA toA amount env = .ok s' →
        lookupStrat s'.strategies toA = some toSt' →
        toSt'.bal ≤ toSt'.cap) := by
  constructor
  · intro s caller fromA toA amount env fromSt toSt hauth hp ha hfrom hto hne hft hfb
      htt hcap
    have hnot : ¬(caller ≠ s.operator ∧ caller ≠ s.owner) := by
      rcases hauth with h | h <;> simp [h]
    simp only [rebalance, if_neg hnot, hp, Bool.false_eq_true, if_false, if_neg ha,
      hfrom, hto, if_neg hne, hft, if_neg (Nat.not_lt.mpr hfb), htt, if_pos hcap]
  · intro s caller fromA toA amount env s' toSt' hgain h hlook
    obtain ⟨fromSt, toSt, hfromEq, htoEq, hne, hfb, hcap, hcons, hs'⟩ :=
      rebalance_ok_inversion s caller fromA toA amount env s' h
    subst hs'
    simp only [rebFinal, rebEff2, rebEff1] at hlook
    rw [lookupStrat_updStrat_self _ toA
      (fun st => { st with bal := st.bal + env.depToGain }) (fun t => rfl)] at hlook
    rw [lookupStrat_updStrat_ne _ fromA toA
      (fun st => { st with bal := env.wdFromBal }) (fun t => rfl) hne] at hlook
    rw [htoEq] at hlook
    simp only [Option.map_some', Option.some.injEq] at hlook
    rw [← hlook]
    exact (by omega : toSt.bal + env.depToGain ≤ toSt.cap)

/-- Witness for C6: a concrete rebalance of one unit into an adapter already
at its cap is rejected with ExceedsAllocationCap, and a successful honest
rebalance leaves the destination at its cap at most. -/
theorem claimC6_cap_enforcement_witness :
    rebalance ⟨7, 0, [⟨1, 10, 100, 7, false, false⟩, ⟨2, 50, 50, 7, false, false⟩],
        0, [], [], 4, 5, false, []⟩ 5 1 2 1 (honestEnv 10 1)
      = .error .ExceedsAllocationCap :=
  claimC6_cap_enforcement.1
    ⟨7, 0, [⟨1, 10, 100, 7, false, false⟩, ⟨2, 50, 50, 7, false, false⟩],
        0, [], [], 4, 5, false, []⟩ 5 1 2 1 (honestEnv 10 1)
    ⟨1, 10, 100, 7, false, false⟩ ⟨2, 50, 50, 7, false, false⟩
    (Or.inl rfl) rfl (by decide) (by decide) (by decide) (by decide) rfl
    (by decide) rfl (by decide)

/-- Counterexample to C2 as stated: in a paused vault, a rebalance from a
caller who is neither operator nor owner fails with NotOperator, not with
Paused — the onlyOperator modifier runs before whenNotPaused. -/
theorem claimC2_pause_cex :
    rebalance pausedVault 99 1 2 5 (honestEnv 0 5) = .error .NotOperator
    ∧ VErr.NotOperator ≠ VErr.Paused := by decide

/-- Claim C2 amended: when paused, deposit always fails with Paused, and
rebalance called by the operator or the owner always fails with Paused
(other callers are stopped earlier by NotOperator); withdraw and redeem
never read the pause flag: forcing the flag to any value leaves their entire
outcome unchanged apart from the flag being carried through. -/
theorem claimC2_pause_gating :
    (∀ (s : VaultState) (caller receiver assets : Nat), s.paused = true →
        deposit s caller receiver assets = .error .Paused)
    ∧ (∀ (s : VaultState) (caller fromA toA amount : Nat) (env : RebEnv),
        s.paused = true → (caller = s.operator ∨ caller = s.owner) →
        rebalance s caller fromA toA amount env = .error .Paused)
    ∧ (∀ (s : VaultState) (b : Bool) (caller receiver owner_ assets : Nat),
        withdraw (setPaused s b) caller receiver owner_ assets
          = Except.map (fun p => (setPaused p.1 b, p.2))
              (withdraw s caller receiver owner_ assets))
    ∧ (∀ (s : VaultState) (b : Bool) (caller receiver owner_ shares : Nat),
        redeem (setPaused s b) caller receiver owner_ shares
          = Except.map (fun p => (setPaused p.1 b, p.2))
              (redeem s caller receiver owner_ shares)) := by
  refine ⟨?_, ?_, withdraw_pause_free, redeem_pause_free⟩
  · intro s caller receiver assets hp
    simp [deposit, hp]
  · intro s caller fromA toA amount env hp hauth
    have hnot : ¬(caller ≠ s.operator ∧ caller ≠ s.owner) := by
      rcases hauth with h | h <;> simp [h]
    simp only [rebalance, if_neg hnot, hp, if_true]

/-- Witness for the amended C2 at concrete inputs: a paused deposit and an
operator-called paused rebalance both fail with Paused, and withdraw and
redeem compute the same outcome with the pause flag forced on as off. -/
theorem claimC2_pause_gating_witness :
    deposit pausedVault 1 2 3 = .error .Paused
    ∧ rebalance pausedVault 5 1 2 3 (honestEnv 0 3) = .error .Paused
    ∧ withdraw (setPaused liveVault true) 1 2 1 3
        = Except.map (fun p => (setPaused p.1 true, p.2)) (withdraw liveVault 1 2 1 3)
    ∧ redeem (setPaused liveVault true) 1 2 1 3
        = Except.map (fun p => (setPaused p.1 true, p.2)) (redeem liveVault 1 2 1 3) :=
  ⟨claimC2_pause_gating.1 pausedVault 1 2 3 rfl,
   claimC2_pause_gating.2.1 pausedVault 5 1 2 3 (honestEnv 0 3) rfl (Or.inl rfl),
   claimC2_pause_gating.2.2.1 liveVault true 1 2 1 3,
   claimC2_pause_gating.2.2.2 liveVault true 1 2 1 3⟩

/-- Claim C3: a withdraw meeting its preconditions (nonzero request, valid
receiver, caller owns the shares, no strategy balance query reverts, and the
owner holds enough shares to cover even the requested amount) always
succeeds and delivers exactly min(requested, idle + totalReleased), also
when that is less than requested: a partial withdrawal is an ok outcome. -/
theorem claimC3_withdraw_partial :
    ∀ (s : VaultState) (caller receiver owner_ assets : Nat),
      assets ≠ 0 → receiver ≠ 0 → caller = owner_ →
      anyTFails s.strategies = false →
      convUp s.supply (vTotalAssets s) assets ≤ getA s.balances owner_ →
      ∃ (s' : VaultState) (sh : Nat),
        withdraw s caller receiver owner_ assets
          = .ok (s', min assets (s.idle + wdReleased s.idle s.strategies assets), sh) := by
  intro s caller receiver owner_ assets ha hr hco ht hb
  obtain ⟨res, hres⟩ := withdrawCore_isOk s.idle s.strategies s.supply s.balances
    s.allowances caller receiver owner_ assets ha hr ht hco hb
  obtain ⟨hAct, _, _, _, _⟩ := withdrawCore_ok s.idle s.strategies s.supply s.balances
    s.allowances caller receiver owner_ assets res hres
  refine ⟨(applyWd s res).1, res.shares, ?_⟩
  simp only [withdraw, hres, Except.map, applyWd]
  rw [← hAct]

/-- Witness for C3: in twoStratVault (8 behind a reverting withdraw, 4
honest), withdrawing 6 succeeds as a partial withdrawal delivering
min(6, 0 + 4) = 4. -/
theorem claimC3_withdraw_partial_witness :
    ∃ (s' : VaultState) (sh : Nat),
      withdraw twoStratVault 1 2 1 6
        = .ok (s', min 6 (twoStratVault.idle
            + wdReleased twoStratVault.idle twoStratVault.strategies 6), sh) :=
  claimC3_withdraw_partial twoStratVault 1 2 1 6 (by decide) (by decide) rfl
    (by decide) (by decide)

/-- Counterexample to C4 as stated: withdrawing 2 assets from roundingVault
(3 idle, 2 shares) burns 2 shares, but convertToShares with RoundDown of the
2 delivered assets is 1 share: the code burns previewWithdraw (RoundUp), not
the claimed RoundDown conversion. -/
theorem claimC4_rounding_cex :
    withdraw roundingVault 1 7 1 2
      = .ok (⟨7, 1, [], 0, [(1, 0)], [], 4, 5, false, [.withdrawEv 1 7 1 2 2]⟩, 2, 2)
    ∧ convDown 2 3 2 = 1
    ∧ (2 : Nat) ≠ 1 := by decide

/-- Claim C4 amended: the shares a successful withdraw burns equal
convertToShares of the actual delivered assets with RoundUp (the
previewWithdraw rounding), computed from the actual amount and never from
the requested amount. -/
theorem claimC4_shares_from_actual :
    ∀ (s : VaultState) (caller receiver owner_ assets : Nat) (s' : VaultState)
      (act sh : Nat),
      withdraw s caller receiver owner_ assets = .ok (s', act, sh) →
      sh = convUp s.supply (vTotalAssets s) act := by
  intro s caller receiver owner_ assets s' act sh h
  simp only [withdraw] at h
  cases hres : withdrawCore s.idle s.strategies s.supply s.balances s.allowances
      caller receiver owner_ assets with
  | error e => rw [hres] at h; exact Except.noConfusion h
  | ok res =>
    rw [hres] at h
    simp only [Except.map, applyWd, Except.ok.injEq, Prod.mk.injEq] at h
    obtain ⟨_, hact, hsh⟩ := h
    obtain ⟨_, hShEq, _, _, _⟩ := withdrawCore_ok s.idle s.strategies s.supply
      s.balances s.allowances caller receiver owner_ assets res hres
    rw [← hsh, ← hact]
    exact hShEq

/-- Witness for the amended C4: in roundingVault, the 2 shares burned equal
the RoundUp conversion of the 2 delivered assets. -/
theorem claimC4_shares_from_actual_witness :
    (2 : Nat) = convUp roundingVault.supply (vTotalAssets roundingVault) 2 :=
  claimC4_shares_from_actual roundingVault 1 7 1 2
    ⟨7, 1, [], 0, [(1, 0)], [], 4, 5, false, [.withdrawEv 1 7 1 2 2]⟩ 2 2 (by decide)

/-- Claim C5: every successful redeem burns exactly the requested shares
from the owner — supply and the owner's balance both drop by the full
requested shares — even when the delivered assets are clipped to the
available liquidity min(entitlement, idle + released). -/
theorem claimC5_redeem_burns_full :
    ∀ (s : VaultState) (caller receiver owner_ shares : Nat) (s' : VaultState)
      (assetsOut shOut : Nat),
      redeem s caller receiver owner_ shares = .ok (s', assetsOut, shOut) →
      shOut = shares
      ∧ s'.supply = s.supply - shares
      ∧ getA s'.balances owner_ = getA s.balances owner_ - shares
      ∧ shares ≤ getA s.balances owner_
      ∧ assetsOut = min (s.idle + wdReleased s.idle s.strategies
            (convAssetsDown s.supply (vTotalAssets s) shares))
          (convAssetsDown s.supply (vTotalAssets s) shares) := by
  intro s caller receiver owner_ shares s' assetsOut shOut h
  simp only [redeem] at h
  cases hres : redeemCore s.idle s.strategies s.supply s.balances s.allowances
      caller receiver owner_ shares with
  | error e => rw [hres] at h; exact Except.noConfusion h
  | ok res =>
    rw [hres] at h
    simp only [Except.map, applyWd, Except.ok.injEq, Prod.mk.injEq] at h
    obtain ⟨hst, hact, hsh⟩ := h
    obtain ⟨hShEq, hSup, hBal, hOwn, hAct⟩ := redeemCore_ok s.idle s.strategies s.supply
      s.balances s.allowances caller receiver owner_ shares res hres
    subst hst
    exact ⟨by rw [← hsh, hShEq], by simpa using hSup, by simpa using hBal, hOwn,
      by rw [← hact, hAct]; rfl⟩

/-- Witness for C5: in stuckVault only 10 of the 60-asset entitlement is
obtainable, yet redeeming all 100 shares succeeds, delivers 10, and burns
the full 100 shares. -/
theorem claimC5_redeem_burns_full_witness :
    redeem stuckVault 1 2 1 100
      = .ok (⟨7, 0, [⟨1, 50, 100, 7, false, true⟩, ⟨2, 0, 100, 7, false, false⟩],
              0, [(1, 0)], [], 4, 5, false,
              [.stratWithdrawFailed 1 50, .withdrawEv 1 2 1 10 100]⟩, 10, 100)
    ∧ ((100 : Nat) = 100
       ∧ (0 : Nat) = stuckVault.supply - 100
       ∧ getA [((1 : Nat), (0 : Nat))] 1 = getA stuckVault.balances 1 - 100
       ∧ 100 ≤ getA stuckVault.balances 1
       ∧ (10 : Nat) = min (stuckVault.idle + wdReleased stuckVault.idle
              stuckVault.strategies
              (convAssetsDown stuckVault.supply (vTotalAssets stuckVault) 100))
            (convAssetsDown stuckVault.supply (vTotalAssets stuckVault) 100)) := by
  refine ⟨by decide, ?_⟩
  have h := claimC5_redeem_burns_full stuckVault 1 2 1 100
    ⟨7, 0, [⟨1, 50, 100, 7, false, true⟩, ⟨2, 0, 100, 7, false, false⟩],
     0, [(1, 0)], [], 4, 5, false,
     [.stratWithdrawFailed 1 50, .withdrawEv 1 2 1 10 100]⟩ 10 100 (by decide)
  exact h

/-- Counterexample to C7 as stated: register adapters 1, 2, 3 in that order
(adapter 1 empty), then remove adapter 1. removeStrategy moves the LAST
adapter into the freed slot, so the array becomes [3, 2], and a cascade
needing both adapters attempts 3 before 2 although 2 was registered
earlier — the attempt order is not registration order after a removal. -/
theorem claimC7_order_cex :
    (addStrategy regVault 4 ⟨1, 0, 0, 7, false, false⟩ 10 >>= fun s1 =>
     addStrategy s1 4 ⟨2, 50, 0, 7, false, false⟩ 100 >>= fun s2 =>
     addStrategy s2 4 ⟨3, 60, 0, 7, false, false⟩ 100 >>= fun s3 =>
     removeStrategy s3 4 1)
      = .ok ⟨7, 0, [⟨3, 60, 100, 7, false, false⟩, ⟨2, 50, 100, 7, false, false⟩],
             0, [], [], 4, 5, false,
             [.strategyAdded 1 10, .strategyAdded 2 100, .strategyAdded 3 100,
              .strategyRemoved 1]⟩
    ∧ (cascadeGo [⟨3, 60, 100, 7, false, false⟩, ⟨2, 50, 100, 7, false, false⟩] 70).visited
        = [3, 2]
    ∧ ([3, 2] : List Nat) ≠ [2, 3] := by decide

/-- Claim C7 amended: the cascade attempts adapters in the order of the
strategies array (its visit list is always a prefix of the array's address
list); addStrategy appends, so the array order is registration order as long
as no adapter has been removed; removeStrategy however swap-removes (last
element into the freed slot), after which array order can differ from
registration order. -/
theorem claimC7_order_amended :
    (∀ (l : List Strategy) (r : Nat),
        ∃ k, (cascadeGo l r).visited = (l.map (·.addr)).take k)
    ∧ (∀ (s : VaultState) (caller : Nat) (st : Strategy) (cap : Nat) (s' : VaultState),
        addStrategy s caller st cap = .ok s' →
        s'.strategies.map (·.addr) = s.strategies.map (·.addr) ++ [st.addr])
    ∧ (∀ (s : VaultState) (caller a : Nat) (s' : VaultState),
        removeStrategy s caller a = .ok s' →
        s'.strategies = swapRemove s.strategies a) := by
  refine ⟨cascadeGo_visited_take, ?_, ?_⟩
  · intro s caller st cap s' h
    simp only [addStrategy] at h
    split_ifs at h with h1 h2 h3 h4 h5
    all_goals first
      | exact Except.noConfusion h
      | (simp only [Except.ok.injEq] at h
         subst h
         simp)
  · intro s caller a s' h
    simp only [removeStrategy] at h
    repeat' split at h
    all_goals try exact Except.noConfusion h
    simp only [Except.ok.injEq] at h
    subst h
    rfl

/-- Witness for the amended C7 at concrete inputs: the cascade's visit list
is a prefix of the array, a concrete addStrategy appends, and a concrete
removeStrategy produces the swap-removed array. -/
theorem claimC7_order_amended_witness :
    (∃ k, (cascadeGo [⟨5, 9, 10, 7, false, false⟩] 4).visited
        = (([⟨5, 9, 10, 7, false, false⟩] : List Strategy).map (·.addr)).take k)
    ∧ (⟨7, 0, [⟨1, 0, 10, 7, false, false⟩], 0, [], [], 4, 5, false,
          [.strategyAdded 1 10]⟩ : VaultState).strategies.map (·.addr)
        = regVault.strategies.map (·.addr) ++ [1]
    ∧ (⟨7, 0, [⟨3, 60, 100, 7, false, false⟩, ⟨2, 50, 100, 7, false, false⟩],
          0, [], [], 4, 5, false, [.strategyRemoved 1]⟩ : VaultState).strategies
        = swapRemove [⟨1, 0, 10, 7, false, false⟩, ⟨2, 50, 100, 7, false, false⟩,
            ⟨3, 60, 100, 7, false, false⟩] 1 :=
  ⟨claimC7_order_amended.1 [⟨5, 9, 10, 7, false, false⟩] 4,
   claimC7_order_amended.2.1 regVault 4 ⟨1, 0, 0, 7, false, false⟩ 10
     ⟨7, 0, [⟨1, 0, 10, 7, false, false⟩], 0, [], [], 4, 5, false,
      [.strategyAdded 1 10]⟩ (by decide),
   claimC7_order_amended.2.2
     ⟨7, 0, [⟨1, 0, 10, 7, false, false⟩, ⟨2, 50, 100, 7, false, false⟩,
        ⟨3, 60, 100, 7, false, false⟩], 0, [], [], 4, 5, false, []⟩ 4 1
     ⟨7, 0, [⟨3, 60, 100, 7, false, false⟩, ⟨2, 50, 100, 7, false, false⟩],
      0, [], [], 4, 5, false, [.strategyRemoved 1]⟩ (by decide)⟩

/-- Counterexample to C8 as stated: in badQueryVault the single adapter's
balance query reverts; the cascade duly records the failure and moves on,
but the enclosing withdraw still aborts with the adapter's revert, because
previewWithdraw recomputes totalAssets() over all strategies with no
try-catch — an adapter failure CAN abort the enclosing withdraw. -/
theorem claimC8_abort_cex :
    withdraw badQueryVault 1 2 1 4 = .error .AdapterRevert
    ∧ (cascadeGo badQueryVault.strategies 4).evs = [.stratWithdrawFailed 5 0] := by
  decide

/-- Claim C8 amended: inside the cascade every per-adapter attempt is
isolated — the cascade over any surrounding adapters composes, an adapter
with a reverting balance query is recorded (requested amount 0) and skipped
with the remainder unchanged, an adapter with a reverting withdraw is
recorded with the attempted amount and skipped likewise — and a
withdraw-call failure never aborts the enclosing withdraw (it still
succeeds under the usual preconditions when no balance query reverts); a
balance-query failure however aborts the enclosing operation through the
unprotected totalAssets() in the share conversion. -/
theorem claimC8_cascade_isolation :
    (∀ (l1 l2 : List Strategy) (r : Nat),
        cascadeGo (l1 ++ l2) r =
          ⟨(cascadeGo l2 (cascadeGo l1 r).remaining).remaining,
           (cascadeGo l1 r).strategies ++ (cascadeGo l2 (cascadeGo l1 r).remaining).strategies,
           (cascadeGo l1 r).evs ++ (cascadeGo l2 (cascadeGo l1 r).remaining).evs,
           (cascadeGo l1 r).visited ++ (cascadeGo l2 (cascadeGo l1 r).remaining).visited⟩)
    ∧ (∀ (bad : Strategy) (r : Nat), 0 < r → bad.tFails = true →
        cascadeGo [bad] r = ⟨r, [bad], [.stratWithdrawFailed bad.addr 0], [bad.addr]⟩)
    ∧ (∀ (bad : Strategy) (r : Nat), 0 < r → bad.tFails = false → bad.wFails = true →
        0 < bad.bal →
        cascadeGo [bad] r
          = ⟨r, [bad], [.stratWithdrawFailed bad.addr (min r bad.bal)], [bad.addr]⟩)
    ∧ (∀ (s : VaultState) (caller receiver owner_ assets : Nat),
        assets ≠ 0 → receiver ≠ 0 → caller = owner_ →
        anyTFails s.strategies = false →
        convUp s.supply (vTotalAssets s) assets ≤ getA s.balances owner_ →
        ∃ r, withdraw s caller receiver owner_ assets = .ok r) := by
  refine ⟨cascadeGo_append, ?_, ?_, ?_⟩
  · intro bad r hr ht
    have hr' : r ≠ 0 := Nat.pos_iff_ne_zero.mp hr
    simp [cascadeGo, hr', ht]
  · intro bad r hr ht hw hb
    have hr' : r ≠ 0 := Nat.pos_iff_ne_zero.mp hr
    have hb' : bad.bal ≠ 0 := Nat.pos_iff_ne_zero.mp hb
    simp [cascadeGo, hr', ht, hw, hb']
  · intro s caller receiver owner_ assets ha hrv hco ht hb
    obtain ⟨res, hres⟩ := withdrawCore_isOk s.idle s.strategies s.supply s.balances
      s.allowances caller receiver owner_ assets ha hrv ht hco hb
    exact ⟨applyWd s res, by simp [withdraw, hres, Except.map]⟩

/-- Witness for the amended C8 at concrete inputs: composition of the
cascade over an append, both skip-and-record behaviours, and a withdraw that
succeeds despite an adapter whose withdraw call reverts. -/
theorem claimC8_cascade_isolation_witness :
    cascadeGo ([⟨1, 8, 100, 7, false, true⟩] ++ [⟨2, 4, 100, 7, false, false⟩]) 6
      = ⟨(cascadeGo [⟨2, 4, 100, 7, false, false⟩]
            (cascadeGo [⟨1, 8, 100, 7, false, true⟩] 6).remaining).remaining,
         (cascadeGo [⟨1, 8, 100, 7, false, true⟩] 6).strategies
           ++ (cascadeGo [⟨2, 4, 100, 7, false, false⟩]
                (cascadeGo [⟨1, 8, 100, 7, false, true⟩] 6).remaining).strategies,
         (cascadeGo [⟨1, 8, 100, 7, false, true⟩] 6).evs
           ++ (cascadeGo [⟨2, 4, 100, 7, false, false⟩]
                (cascadeGo [⟨1, 8, 100, 7, false, true⟩] 6).remaining).evs,
         (cascadeGo [⟨1, 8, 100, 7, false, true⟩] 6).visited
           ++ (cascadeGo [⟨2, 4, 100, 7, false, false⟩]
                (cascadeGo [⟨1, 8, 100, 7, false, true⟩] 6).remaining).visited⟩
    ∧ cascadeGo [⟨5, 7, 100, 7, true, false⟩] 4
        = ⟨4, [⟨5, 7, 100, 7, true, false⟩], [.stratWithdrawFailed 5 0], [5]⟩
    ∧ cascadeGo [⟨1, 8, 100, 7, false, true⟩] 6
        = ⟨6, [⟨1, 8, 100, 7, false, true⟩], [.stratWithdrawFailed 1 6], [1]⟩
    ∧ (∃ r, withdraw twoStratVault 1 2 1 6 = .ok r) :=
  ⟨claimC8_cascade_isolation.1 [⟨1, 8, 100, 7, false, true⟩]
     [⟨2, 4, 100, 7, false, false⟩] 6,
   claimC8_cascade_isolation.2.1 ⟨5, 7, 100, 7, true, false⟩ 4 (by decide) rfl,
   by
     have h := claimC8_cascade_isolation.2.2.1 ⟨1, 8, 100, 7, false, true⟩ 6
       (by decide) rfl rfl (by decide)
     simpa using h,
   claimC8_cascade_isolation.2.2.2 twoStratVault 1 2 1 6 (by decide) (by decide) rfl
     (by decide) (by decide)⟩

/-- Counterexample to C9 as stated: at genesis (0 shares, 0 custodied) the
code converts 5 assets to 5 shares, while the claimed formula with a virtual
offset equivalent to 1000 units would give 5000 shares: the code's offset is
not 1000. -/
theorem claimC9_offset_cex :
    convDown 0 0 5 = 5 ∧ specConvertToShares 1000 0 0 5 = 5000 ∧ (5 : Nat) ≠ 5000 := by
  decide

/-- Claim C9 amended: both conversion directions compute exactly the spec's
(totalShares + offset) / (totalCustodied + 1) proportional form, but with
the virtual offset 10 ^ decimalsOffset = 1 (the inherited OpenZeppelin
default, decimalsOffset 0), not 1000. -/
theorem claimC9_offset_one :
    decimalsOffset = 0
    ∧ (10 : Nat) ^ decimalsOffset = 1
    ∧ (∀ S A x : Nat, convDown S A x = specConvertToShares (10 ^ decimalsOffset) S A x)
    ∧ (∀ S A x : Nat,
        convAssetsDown S A x = specConvertToAssets (10 ^ decimalsOffset) S A x) := by
  exact ⟨rfl, rfl, fun S A x => rfl, fun S A x => rfl⟩

/-- Claim C10: IdleStrategy.emergencyWithdraw is owner-only, and when the
owner calls it the strategy's whole balance moves to the owner's wallet and
the strategy's totalAssets() becomes 0; reflected at a vault that has the
strategy registered, totalAssets() drops by exactly that balance while the
share supply and every share balance are untouched — custodied value leaves
the system with no vault operation and no share burn. -/
theorem claimC10_emergency_drain :
    (∀ (ist : IdleStrategyState) (caller : Nat), caller ≠ ist.stOwner →
        emergencyWithdraw ist caller = .error .NotOwner)
    ∧ (∀ ist : IdleStrategyState, ∃ ist',
        emergencyWithdraw ist ist.stOwner = .ok ist'
        ∧ ist'.stTotalAssets = 0
        ∧ ist'.ownerWallet = ist.ownerWallet + ist.bal)
    ∧ (∀ (s : VaultState) (a : Nat) (st : Strategy),
        lookupStrat s.strategies a = some st →
        vTotalAssets (reflectBal s a 0) + st.bal = vTotalAssets s
        ∧ (reflectBal s a 0).supply = s.supply
        ∧ (reflectBal s a 0).balances = s.balances) := by
  refine ⟨?_, ?_, ?_⟩
  · intro ist caller h
    simp [emergencyWithdraw, h]
  · intro ist
    by_cases hb : ist.bal > 0
    · exact ⟨{ ist with bal := 0, ownerWallet := ist.ownerWallet + ist.bal },
        by simp [emergencyWithdraw, hb], rfl, rfl⟩
    · refine ⟨ist, by simp [emergencyWithdraw, hb], ?_, by omega⟩
      simp only [IdleStrategyState.stTotalAssets]
      omega
  · intro s a st h
    refine ⟨?_, rfl, rfl⟩
    have := sumBals_updStrat_setBal s.strategies a st 0 h
    simp only [vTotalAssets, reflectBal]
    omega

/-- Witness for C10 at concrete inputs: a stranger is rejected, the owner
drains the 33-unit balance to their wallet leaving the strategy at 0, and
zeroing the registered strategy 2 of twoStratVault drops the vault total by
4 with supply and balances unchanged. -/
theorem claimC10_emergency_drain_witness :
    emergencyWithdraw ⟨4, 9, 33, 0⟩ 8 = .error .NotOwner
    ∧ (∃ ist', emergencyWithdraw ⟨4, 9, 33, 0⟩ 4 = .ok ist'
        ∧ ist'.stTotalAssets = 0 ∧ ist'.ownerWallet = 0 + 33)
    ∧ (vTotalAssets (reflectBal twoStratVault 2 0) + 4 = vTotalAssets twoStratVault
        ∧ (reflectBal twoStratVault 2 0).supply = twoStratVault.supply
        ∧ (reflectBal twoStratVault 2 0).balances = twoStratVault.balances) :=
  ⟨claimC10_emergency_drain.1 ⟨4, 9, 33, 0⟩ 8 (by decide),
   claimC10_emergency_drain.2.1 ⟨4, 9, 33, 0⟩,
   claimC10_emergency_drain.2.2 twoStratVault 2 ⟨2, 4, 100, 7, false, false⟩ (by decide)⟩

end MantleYield
